import Mathlib

/-
Verification of the grid-search backtesting engine of this repository
(`backtest_optimization.py`, with the per-day variant in `stock_scanner_go.py`
and the per-instrument isolation pattern of `dragon_history_backtest.py`).

All prices, indicator values and returns are modelled as exact rationals (ℚ);
the Python source computes with IEEE floats, and `pandas`/`numpy` NaN
("indicator not yet computable") is modelled as `Option ℚ` with the NaN
comparison semantics: any comparison against `none` is `false`.
-/

/-! ## Data model

`Day` is one column of the per-trade forward-window matrices: the source keeps
five parallel arrays `f_close / f_low / f_k / f_d / f_macd_h`
(`backtest_optimization.py` lines 86-90); a `List Day` is the same data with
the five arrays zipped positionally. -/

/-- One day of a candidate's forward-looking window: the values
`f_low / f_close / f_k / f_d / f_macd_h` at one day after entry. -/
structure Day where
  low : ℚ
  close : ℚ
  k : ℚ
  d : ℚ
  macd : ℚ
deriving DecidableEq

instance : Inhabited Day := ⟨⟨0, 0, 0, 0, 0⟩⟩

/-- One admitted entry point (`raw_signals` element, lines 82-91): entry index
(kept for traceability only), entry price, the snapshot of the indicators used
by the admission predicate and the grid's entry filter, and the fixed-length
forward window. -/
structure Candidate where
  idx : Nat
  entry : ℚ
  pot : ℚ
  rsi : ℚ
  window : List Day
deriving DecidableEq

/-- One point of the Cartesian parameter grid (`PARAM_GRID`, lines 12-18):
`(p_pot, p_rsi, p_hold, p_stop, p_k_lvl)` in the loop of line 111. -/
structure Params where
  min_pot : ℚ
  rsi_max : ℚ
  max_hold : Nat
  stop_loss : ℚ
  k_sell : ℚ
deriving DecidableEq

/-- One emitted result row (lines 155-160): the parameter combination plus
sample count (`次数`), win rate (`胜率`) and mean return (`均益`). -/
structure ComboResult where
  params : Params
  count : Nat
  winRate : ℚ
  meanRet : ℚ
deriving DecidableEq

/-! ## Exit rules and per-trade return (lines 124-153)

The source builds three boolean matrices `c1, c2, c3` over the truncated
forward windows, ORs them into `exit_matrix`, takes `has_exit = any(axis=1)`
and `first_exit = argmax(axis=1)`, and computes each row's return; rows with
`has_exit` false keep the default `max_hold`-day close return. -/

/-- Hard stop-loss rule `c1` (line 126): `(m_low - m_entry) / m_entry <= p_stop`. -/
def stopHit (stop e : ℚ) (dy : Day) : Bool :=
  decide ((dy.low - e) / e ≤ stop)

/-- KDJ top-escape rule `c2` (line 128): `(m_k > p_k_lvl) & (m_k < m_d)`. -/
def kdjExit (kLvl : ℚ) (dy : Day) : Bool :=
  decide (kLvl < dy.k) && decide (dy.k < dy.d)

/-- MACD weakening rule `c3` (line 130): `m_macd < 0`. -/
def macdExit (dy : Day) : Bool :=
  decide (dy.macd < 0)

/-- Combined exit trigger, one cell of `exit_matrix = c1 | c2 | c3` (line 132). -/
def exitTrig (p : Params) (e : ℚ) (dy : Day) : Bool :=
  stopHit p.stop_loss e dy || kdjExit p.k_sell dy || macdExit dy

/-- The per-trade realized return of lines 134-153.  The window is truncated
to `p.max_hold` columns (the `[:, :p_hold]` slices of lines 118-122).  If no
column of the combined exit row is true, the return is taken from the final
close of the truncated window (`m_close[:, p_hold-1]`, line 140).  Otherwise
the first true column wins (`np.argmax`, line 137; only consulted under the
`has_exit` guard of line 143), and if the stop-loss rule `c1` is true at that
column the return is forced to `p.stop_loss` (lines 148-152), else it is the
close-based return of that column (lines 145-150). -/
def tradeReturn (p : Params) (e : ℚ) (w : List Day) : ℚ :=
  let days := w.take p.max_hold
  if days.any (exitTrig p e) then
    let j := days.findIdx (exitTrig p e)
    let dy := days.getD j default
    if stopHit p.stop_loss e dy then p.stop_loss
    else (dy.close - e) / e
  else
    ((days.getD (p.max_hold - 1) default).close - e) / e

/-! ## Entry filter, significance floor and per-combination evaluation
(lines 108-160) -/

/-- The grid entry filter of line 113:
`mask = (pot_arr >= p_pot) & (rsi_arr <= p_rsi)`. -/
def entryFilter (p : Params) (c : Candidate) : Bool :=
  decide (p.min_pot ≤ c.pot) && decide (c.rsi ≤ p.rsi_max)

/-- The floor `MIN_TRADES_FILTER` (line 22): combinations with fewer selected trades
are skipped. -/
def MIN_TRADES_FILTER : Nat := 500

/-- Rounding to 4 decimal places, modelling Python's `round(x, 4)` of
lines 158-159 over exact rationals. -/
def round4 (x : ℚ) : ℚ :=
  (round (x * 10000) : ℚ) / 10000

/-- One iteration of the grid loop (lines 111-160): filter the pool by the
entry-side thresholds; if fewer than `MIN_TRADES_FILTER` candidates remain the
combination is skipped (`continue`, line 114) and no result row is produced;
otherwise the per-trade returns are computed and reduced to count, win rate
and mean return (lines 155-160). -/
def evalCombo (pool : List Candidate) (p : Params) : Option ComboResult :=
  let sel := pool.filter (entryFilter p)
  if sel.length < MIN_TRADES_FILTER then none
  else
    let rets := sel.map (fun c => tradeReturn p c.entry c.window)
    some ⟨p, rets.length,
          round4 (((rets.filter (fun r => decide (0 < r))).length : ℚ) / (rets.length : ℚ)),
          round4 (rets.sum / (rets.length : ℚ))⟩

/-- The whole grid loop: every combination that survives the significance
floor contributes exactly one result row, in grid iteration order. -/
def evaluate (pool : List Candidate) (grid : List Params) : List ComboResult :=
  grid.filterMap (evalCombo pool)

/-! ## Ranking (lines 163-166)

The source runs `res_df.sort_values('胜率', ascending=False)` and keeps
`head(100)`.  `pandas` implements a descending sort as a stable ascending
argsort whose index order is then reversed, so rows with equal win rate come
out in reverse iteration order; that is modelled here by a stable ascending
insertion sort followed by `reverse`.  No other column takes part in the
sort. -/

/-- Stable ascending insertion by win rate: the inserted element goes before
any element of equal win rate already present. -/
def insertByWinRate (x : ComboResult) : List ComboResult → List ComboResult
  | [] => [x]
  | y :: ys => if y.winRate < x.winRate then y :: insertByWinRate x ys
               else x :: y :: ys

/-- Stable ascending sort by win rate. -/
def sortAscWinRate : List ComboResult → List ComboResult
  | [] => []
  | x :: xs => insertByWinRate x (sortAscWinRate xs)

/-- Models `sort_values('胜率', ascending=False)` (line 163). -/
def sortResults (l : List ComboResult) : List ComboResult :=
  (sortAscWinRate l).reverse

/-- Models `res_df.sort_values('胜率', ascending=False)` followed by
`head(100)` (lines 163-166). -/
def rankedResults (l : List ComboResult) : List ComboResult :=
  (sortResults l).take 100

/-! ## The parameter grid `PARAM_GRID` (lines 12-18) -/

/-- Dimension `'min_pot': [15, 20, 25, 30, 35, 40, 45]`. -/
def min_pot_grid : List ℚ := [15, 20, 25, 30, 35, 40, 45]

/-- Dimension `'rsi_max': list(range(20, 41, 2))`. -/
def rsi_max_grid : List ℚ := [20, 22, 24, 26, 28, 30, 32, 34, 36, 38, 40]

/-- Dimension `'max_hold': [10, 15, 20, 25, 30, 35]`. -/
def max_hold_grid : List Nat := [10, 15, 20, 25, 30, 35]

/-- Dimension `'stop_loss': [round(x, 2) for x in np.arange(-0.07, -0.19, -0.01)]`. -/
def stop_loss_grid : List ℚ :=
  [-7/100, -8/100, -9/100, -10/100, -11/100, -12/100,
   -13/100, -14/100, -15/100, -16/100, -17/100, -18/100]

/-- Dimension `'k_sell': [70, 75, 80, 85, 90]`. -/
def k_sell_grid : List ℚ := [70, 75, 80, 85, 90]

/-- The Cartesian product `product(*PARAM_GRID.values())` of line 111. -/
def paramGrid : List Params :=
  min_pot_grid.flatMap fun mp =>
    rsi_max_grid.flatMap fun rm =>
      max_hold_grid.flatMap fun mh =>
        stop_loss_grid.flatMap fun sl =>
          k_sell_grid.map fun ks => ⟨mp, rm, mh, sl, ks⟩

/-! ## Indicator library (`calculate_all_indicators`, lines 28-60)

`pandas` rolling windows are undefined (`NaN`) until the window fills; that is
modelled by `Option ℚ` with `none` for `NaN`.  `ewm(adjust=False)` has no
warm-up: its first output equals the first input. -/

/-- The epsilon `1e-9` used to guard zero denominators (lines 42 and 47). -/
def EPS : ℚ := 1 / 1000000000

/-- The recursion `ewm(adjust=False).mean()` continued from a running value `acc`:
`y_t = (1 - a) * y_(t-1) + a * x_t`. -/
def ewmFrom (a acc : ℚ) : List ℚ → List ℚ
  | [] => []
  | x :: xs => ((1 - a) * acc + a * x) :: ewmFrom a ((1 - a) * acc + a * x) xs

/-- Models pandas `ewm(adjust=False).mean()` on a fully defined series:
the first output is the first input. -/
def ewm (a : ℚ) : List ℚ → List ℚ
  | [] => []
  | x :: xs => x :: ewmFrom a x xs

/-- The recursion `ewm(adjust=False).mean()` continued below positions whose input is `NaN`:
`pandas` emits the running mean unchanged at a `NaN` input. -/
def ewmOptFrom (a acc : ℚ) : List (Option ℚ) → List (Option ℚ)
  | [] => []
  | none :: xs => some acc :: ewmOptFrom a acc xs
  | some x :: xs =>
      some ((1 - a) * acc + a * x) :: ewmOptFrom a ((1 - a) * acc + a * x) xs

/-- Models `ewm(adjust=False).mean()` on a series with a leading `NaN` prefix
(the shape produced by a rolling window feeding an `ewm`): leading `NaN`s
stay `NaN`; the recursion starts at the first defined value. -/
def ewmOpt (a : ℚ) : List (Option ℚ) → List (Option ℚ)
  | [] => []
  | none :: xs => none :: ewmOpt a xs
  | some x :: xs => some x :: ewmOptFrom a x xs

/-- Models `np.diff(close, prepend=close[0])` (line 39): first delta is `0`, then
adjacent differences. -/
def deltas : List ℚ → List ℚ
  | [] => []
  | c :: cs => List.zipWith (· - ·) (c :: cs) (c :: c :: cs)

/-- The RSI-6 oscillator of lines 39-42: Wilder smoothing (`alpha = 1/6`,
`adjust=False`) of gains and losses, with the zero-loss denominator replaced
by `1e-9` (`np.where(dn == 0, 1e-9, dn)`). -/
def rsi6 (close : List ℚ) : List ℚ :=
  let d := deltas close
  let up := ewm (1/6) (d.map fun x => if 0 < x then x else 0)
  let dn := ewm (1/6) (d.map fun x => if x < 0 then -x else 0)
  List.zipWith (fun u n => 100 - 100 / (1 + u / (if n = 0 then EPS else n))) up dn

/-- A `pandas` trailing rolling window reduced by `f`: position `i` is
defined iff at least `w` values have accumulated (`i + 1 >= w`), and then
covers indices `i - w + 1 .. i`. -/
def rollingApply (f : List ℚ → ℚ) (w : Nat) (xs : List ℚ) : List (Option ℚ) :=
  (List.range xs.length).map fun i =>
    if w ≤ i + 1 then some (f ((xs.drop (i + 1 - w)).take w)) else none

/-- Models `rolling(w).mean()` (line 37). -/
def rollingMean (w : Nat) (xs : List ℚ) : List (Option ℚ) :=
  rollingApply (fun l => l.sum / (w : ℚ)) w xs

/-- Models `rolling(w).min()` (line 45). -/
def rollingMin (w : Nat) (xs : List ℚ) : List (Option ℚ) :=
  rollingApply (fun l => match l with | [] => 0 | x :: r => r.foldl min x) w xs

/-- Models `rolling(w).max()` (line 46). -/
def rollingMax (w : Nat) (xs : List ℚ) : List (Option ℚ) :=
  rollingApply (fun l => match l with | [] => 0 | x :: r => r.foldl max x) w xs

/-- Models `potential = (ma60 - close) / np.where(close == 0, 1, close) * 100`
(lines 37-38); undefined until the 60-bar window fills. -/
def potentialSeries (close : List ℚ) : List (Option ℚ) :=
  List.zipWith (fun c m? => m?.map fun m => (m - c) / (if c = 0 then 1 else c) * 100)
    close (rollingMean 60 close)

/-- The raw stochastic `rsv` of line 47, with the zero-range denominator
replaced by `1e-9` (`.replace(0, 1e-9)`); undefined until the 9-bar rolling
extrema fill. -/
def rsvSeries (close high low : List ℚ) : List (Option ℚ) :=
  List.zipWith
    (fun c lh =>
      match lh with
      | (some l9, some h9) =>
          some ((c - l9) / (if h9 - l9 = 0 then EPS else h9 - l9) * 100)
      | _ => none)
    close ((rollingMin 9 low).zip (rollingMax 9 high))

/-- The KDJ `K` line (line 48): `ewm(com=2, adjust=False)` of `rsv`,
so `alpha = 1/3`. -/
def kdjKSeries (close high low : List ℚ) : List (Option ℚ) :=
  ewmOpt (1/3) (rsvSeries close high low)

/-- The KDJ `D` line (line 49): `ewm(com=2, adjust=False)` of `K`. -/
def kdjDSeries (close high low : List ℚ) : List (Option ℚ) :=
  ewmOpt (1/3) (kdjKSeries close high low)

/-- The MACD histogram of lines 52-54:
`((ema12 - ema26) - ewm_9(ema12 - ema26)) * 2` with spans 12, 26, 9
(`alpha = 2/(span+1)`). -/
def macdHSeries (close : List ℚ) : List ℚ :=
  let ema12 := ewm (2/13) close
  let ema26 := ewm (2/27) close
  let dif := List.zipWith (· - ·) ema12 ema26
  let dea := ewm (2/10) dif
  List.zipWith (fun x y => 2 * (x - y)) dif dea

/-- The indicator dictionary returned by `calculate_all_indicators`
(lines 56-59). -/
structure Indicators where
  close : List ℚ
  low : List ℚ
  rsi6 : List ℚ
  potential : List (Option ℚ)
  k : List (Option ℚ)
  d : List (Option ℚ)
  macd_h : List ℚ
deriving DecidableEq

/-- One loaded CSV as the engine sees it: a row count plus the three columns
the engine reads; a column the file lacks is `none` (reading it raises
`KeyError`, caught by the `except` of line 60). -/
structure RawDF where
  nrows : Nat
  close? : Option (List ℚ)
  high? : Option (List ℚ)
  low? : Option (List ℚ)
deriving DecidableEq

/-- The function `calculate_all_indicators` (lines 28-60): series shorter than 65 bars and
series missing a required column yield `None`; otherwise the indicator
dictionary is computed. -/
def calculate_all_indicators (df : RawDF) : Option Indicators :=
  if df.nrows < 65 then none
  else
    match df.close?, df.high?, df.low? with
    | some close, some high, some low =>
        some { close := close, low := low, rsi6 := rsi6 close,
               potential := potentialSeries close,
               k := kdjKSeries close high low,
               d := kdjDSeries close high low,
               macd_h := macdHSeries close }
    | _, _, _ => none

/-! ## Candidate pool builder (`main`, lines 70-91)

`numpy` comparisons against `NaN` are `False`; the admission mask of line 77
is therefore `false` wherever an indicator is still undefined. -/

/-- The NaN-semantics strict comparison `o > t`, `false` when `o` is
undefined. -/
def optGtC (o : Option ℚ) (t : ℚ) : Bool :=
  match o with
  | none => false
  | some v => decide (t < v)

/-- The NaN-semantics strict comparison of two possibly undefined values,
`a > b`, `false` when either side is undefined. -/
def optGtOpt (a b : Option ℚ) : Bool :=
  match a, b with
  | some x, some y => decide (y < x)
  | _, _ => false

/-- The coarse admission mask of line 77:
`(potential > 10) & (rsi6 < 45) & (k > d)`. -/
def coarseMask (ind : Indicators) (i : Nat) : Bool :=
  optGtC (ind.potential.getD i none) 10
    && decide (ind.rsi6.getD i 0 < 45)
    && optGtOpt (ind.k.getD i none) (ind.d.getD i none)

/-- One day of the forward-window slices of lines 86-90
(`f_low`, `f_close`, `f_k`, `f_d`, `f_macd_h` at absolute index `j`;
`k`/`d` are defined at every sliced index whenever the mask admits the entry). -/
def mkDay (ind : Indicators) (j : Nat) : Day :=
  ⟨ind.low.getD j 0, ind.close.getD j 0,
   ((ind.k.getD j none).getD 0), ((ind.d.getD j none).getD 0),
   ind.macd_h.getD j 0⟩

/-- The signal-scan loop of lines 78-91: every index where the admission mask
holds and at least 36 further bars exist (`if idx + 36 >= len: continue`)
yields one candidate whose forward window is the 35-day slice
`[idx+1 : idx+36]`. -/
def buildSignals (ind : Indicators) : List Candidate :=
  (List.range ind.close.length).filterMap fun i =>
    if coarseMask ind i && decide (i + 36 < ind.close.length) then
      some ⟨i, ind.close.getD i 0, (ind.potential.getD i none).getD 0,
            ind.rsi6.getD i 0,
            (List.range 35).map fun j => mkDay ind (i + 1 + j)⟩
    else none

/-- The per-file scan loop of lines 71-91: files whose indicator computation
returns `None` are skipped (`continue`, line 73) and contribute no
candidates; the surviving candidate lists are pooled. -/
def pool (dfs : List RawDF) : List Candidate :=
  dfs.flatMap fun df =>
    match calculate_all_indicators df with
    | none => []
    | some ind => buildSignals ind

/-! ## Index-level predicates for the refinement claim

`coarsePred` is the admission mask of line 77 and `gridEntryPred` the entry
filter of line 113, both read as predicates on one index's indicator values
(all defined). -/

/-- The indicator values at one scan index. -/
structure Point where
  pot : ℚ
  rsi : ℚ
  k : ℚ
  d : ℚ
deriving DecidableEq

/-- Line 77: `(potential > 10) & (rsi6 < 45) & (k > d)`. -/
def coarsePred (x : Point) : Bool :=
  decide (10 < x.pot) && decide (x.rsi < 45) && decide (x.d < x.k)

/-- Line 113: `(pot_arr >= p_pot) & (rsi_arr <= p_rsi)`. -/
def gridEntryPred (p : Params) (x : Point) : Bool :=
  decide (p.min_pot ≤ x.pot) && decide (x.rsi ≤ p.rsi_max)

/-! # Claims -/

/-- C1: for every trade row whose combined exit matrix has a true entry, if
the hard stop-loss rule `c1` is true at the winning (first-triggered) column
— in particular whenever `c1` and a secondary rule are both true there — the
recorded return is exactly `p.stop_loss`, regardless of the actual low and
never the secondary-exit price; otherwise it is
`(that day's close - entry) / entry` (lines 134-153). -/
theorem stop_loss_priority_on_winning_day (p : Params) (e : ℚ) (w : List Day)
    (hex : (w.take p.max_hold).any (exitTrig p e) = true) :
    (stopHit p.stop_loss e
        ((w.take p.max_hold).getD ((w.take p.max_hold).findIdx (exitTrig p e)) default) = true →
      tradeReturn p e w = p.stop_loss) ∧
    (stopHit p.stop_loss e
        ((w.take p.max_hold).getD ((w.take p.max_hold).findIdx (exitTrig p e)) default) = false →
      tradeReturn p e w =
        (((w.take p.max_hold).getD ((w.take p.max_hold).findIdx (exitTrig p e)) default).close - e) / e) := by
  constructor <;> intro h <;>
    simp only [tradeReturn, hex, h, if_true, Bool.false_eq_true, if_false]

/-- Witness for C1 at a one-day window where the stop-loss rule and the KDJ
rule both fire on the same (first) day, the low implies a −15% loss, and the
recorded return is the configured −10%. -/
theorem stop_loss_priority_on_winning_day_witness :
    tradeReturn ⟨15, 40, 10, -1/10, 70⟩ 10 [⟨17/2, 87/10, 80, 90, -1⟩] = -1/10 ∧
    kdjExit 70 ⟨17/2, 87/10, 80, 90, -1⟩ = true := by
  have h := stop_loss_priority_on_winning_day ⟨15, 40, 10, -1/10, 70⟩ 10
    [⟨17/2, 87/10, 80, 90, -1⟩]
    (by norm_num [exitTrig, stopHit, kdjExit, macdExit])
  refine ⟨h.1 ?_, by norm_num [kdjExit]⟩
  norm_num [exitTrig, stopHit, kdjExit, macdExit, List.findIdx_cons, List.getD]

/-- C2 counterexample: a candidate whose forward window touches the −10% stop
level (its lows contain `8 ≤ 10 * 0.9`, here seen at column 1 of the low
row; `8` is in fact the window minimum), evaluated under
`stop_loss = -1/10`, yet whose recorded return is the close-based return
`-1/25` of the day-0 MACD exit — not `-1/10` — because the MACD rule fires
strictly before the first stop-breach day and wins the first-trigger scan
(lines 136-152). -/
theorem touched_stop_level_not_always_fixed_return :
    (((⟨19/2, 48/5, 10, 20, -1⟩ :: List.replicate 9 ⟨8, 8, 10, 20, -1⟩ : List Day).map
        Day.low).getD 1 0 ≤ 10 * (9/10)) ∧
    tradeReturn ⟨15, 40, 10, -1/10, 70⟩ 10
      (⟨19/2, 48/5, 10, 20, -1⟩ :: List.replicate 9 ⟨8, 8, 10, 20, -1⟩) = -1/25 ∧
    (-1/25 : ℚ) ≠ -1/10 := by
  refine ⟨by norm_num [List.replicate, List.getD], ?_, by norm_num⟩
  norm_num [tradeReturn, exitTrig, stopHit, kdjExit, macdExit,
    List.findIdx_cons, List.getD, List.replicate]

/-- C2 amended: under `stop_loss = -1/10`, whenever the stop-loss rule is
true at the winning (first-triggered) column — which forces the window's lows
to touch `entry * 0.9` — the recorded return is exactly `-1/10`, never the
return implied by the actually touched low; without that proviso a secondary
exit firing strictly earlier can preempt the stop. -/
theorem stop_loss_guaranteed_fill (p : Params) (e : ℚ) (w : List Day)
    (hstop : p.stop_loss = -1/10) (he : 0 < e)
    (hex : (w.take p.max_hold).any (exitTrig p e) = true)
    (hfirst : stopHit p.stop_loss e
        ((w.take p.max_hold).getD ((w.take p.max_hold).findIdx (exitTrig p e)) default) = true) :
    tradeReturn p e w = -1/10 ∧ ∃ dy ∈ w.take p.max_hold, dy.low ≤ e * (9/10) := by
  constructor
  · rw [← hstop]
    simp only [tradeReturn, hex, hfirst, if_true]
  · have hj : (w.take p.max_hold).findIdx (exitTrig p e) < (w.take p.max_hold).length :=
      List.findIdx_lt_length.mpr (List.any_eq_true.mp hex)
    set days := w.take p.max_hold with hdays
    refine ⟨days.getD (days.findIdx (exitTrig p e)) default, ?_, ?_⟩
    · rw [List.getD_eq_getElem _ _ hj]
      exact List.getElem_mem hj
    · have hs := hfirst
      rw [hstop] at hs
      have hle : ((days.getD (days.findIdx (exitTrig p e)) default).low - e) / e ≤ -1/10 :=
        of_decide_eq_true hs
      rw [div_le_iff₀ he] at hle
      linarith

/-- Witness for C2 amended: entry 10, a single-day window whose low `17/2`
breaches the stop; the recorded return is exactly `-1/10` although the
touched low implies −15%. -/
theorem stop_loss_guaranteed_fill_witness :
    tradeReturn ⟨15, 40, 10, -1/10, 70⟩ 10 [⟨17/2, 9, 10, 5, 1⟩] = -1/10 ∧
    ∃ dy ∈ ([⟨17/2, 9, 10, 5, 1⟩] : List Day).take 10, dy.low ≤ 10 * (9/10) := by
  have h := stop_loss_guaranteed_fill ⟨15, 40, 10, -1/10, 70⟩ 10 [⟨17/2, 9, 10, 5, 1⟩]
    rfl (by norm_num)
    (by norm_num [exitTrig, stopHit, kdjExit, macdExit])
    (by norm_num [exitTrig, stopHit, kdjExit, macdExit, List.findIdx_cons, List.getD])
  exact h

/-- C3: a trade row whose combined exit matrix has no true entry within the
first `p.max_hold` columns keeps the default return computed from the final
close of the truncated window (`m_close[:, p_hold-1]`, line 140): the
`has_exit` guard of line 143 prevents the all-false `argmax` result `0` from
being used, so "no exit" is never conflated with "exit on day 0" — whenever
the day-0 close differs from the final close, the recorded return differs
from the day-0 close return. -/
theorem no_exit_runs_to_horizon (p : Params) (e : ℚ) (w : List Day)
    (hno : (w.take p.max_hold).any (exitTrig p e) = false) :
    tradeReturn p e w = (((w.take p.max_hold).getD (p.max_hold - 1) default).close - e) / e ∧
    (e ≠ 0 →
      ((w.take p.max_hold).getD 0 default).close ≠
        ((w.take p.max_hold).getD (p.max_hold - 1) default).close →
      tradeReturn p e w ≠ (((w.take p.max_hold).getD 0 default).close - e) / e) := by
  have h1 : tradeReturn p e w =
      (((w.take p.max_hold).getD (p.max_hold - 1) default).close - e) / e := by
    simp only [tradeReturn, hno, Bool.false_eq_true, if_false]
  refine ⟨h1, fun he hne heq => hne ?_⟩
  rw [h1, div_eq_div_iff he he] at heq
  have h2 := mul_right_cancel₀ he heq
  linarith

/-- Witness for C3: a 10-day window with no trigger anywhere; the return is
taken from the final close `21/2`, not from the day-0 close `101/10`. -/
theorem no_exit_runs_to_horizon_witness :
    tradeReturn ⟨15, 40, 10, -1/10, 70⟩ 10
        (⟨10, 101/10, 10, 20, 1⟩ :: List.replicate 9 ⟨10, 21/2, 10, 20, 1⟩) =
      ((((⟨10, 101/10, 10, 20, 1⟩ :: List.replicate 9 ⟨10, 21/2, 10, 20, 1⟩ : List Day).take
          10).getD 9 default).close - 10) / 10 ∧
    tradeReturn ⟨15, 40, 10, -1/10, 70⟩ 10
        (⟨10, 101/10, 10, 20, 1⟩ :: List.replicate 9 ⟨10, 21/2, 10, 20, 1⟩) ≠
      ((((⟨10, 101/10, 10, 20, 1⟩ :: List.replicate 9 ⟨10, 21/2, 10, 20, 1⟩ : List Day).take
          10).getD 0 default).close - 10) / 10 := by
  have h := no_exit_runs_to_horizon ⟨15, 40, 10, -1/10, 70⟩ 10
    (⟨10, 101/10, 10, 20, 1⟩ :: List.replicate 9 ⟨10, 21/2, 10, 20, 1⟩)
    (by norm_num [exitTrig, stopHit, kdjExit, macdExit, List.replicate])
  exact ⟨h.1, h.2 (by norm_num) (by norm_num [List.replicate, List.getD])⟩

/-- C4: a combination whose entry filter selects fewer than
`MIN_TRADES_FILTER` candidates is skipped outright (`continue`, line 114):
`evalCombo` emits nothing for it and no row of the output carries its
parameters; the skip is a plain branch, not an error. -/
theorem insignificant_combination_skipped (pool : List Candidate) (grid : List Params)
    (p : Params) (h : (pool.filter (entryFilter p)).length < MIN_TRADES_FILTER) :
    evalCombo pool p = none ∧ ∀ r ∈ evaluate pool grid, r.params ≠ p := by
  have hnone : evalCombo pool p = none := by
    simp only [evalCombo, h, if_true]
  refine ⟨hnone, fun r hr hrp => ?_⟩
  obtain ⟨q, hq, hqr⟩ := List.mem_filterMap.mp hr
  have hq2 : r.params = q := by
    simp only [evalCombo] at hqr
    split at hqr
    · exact absurd hqr (by simp)
    · cases hqr
      rfl
  rw [hq2] at hrp
  rw [hrp, hnone] at hqr
  exact Option.noConfusion hqr

/-- Witness for C4: the empty pool selects 0 < 500 candidates for any
combination, so the combination is absent from the output. -/
theorem insignificant_combination_skipped_witness :
    evalCombo [] ⟨15, 40, 10, -1/10, 70⟩ = none ∧
    ∀ r ∈ evaluate [] [⟨15, 40, 10, -1/10, 70⟩], r.params ≠ ⟨15, 40, 10, -1/10, 70⟩ :=
  insignificant_combination_skipped [] [⟨15, 40, 10, -1/10, 70⟩] ⟨15, 40, 10, -1/10, 70⟩
    (by norm_num [MIN_TRADES_FILTER])

/-- Filtering by a weaker boolean predicate keeps at least as many
elements. -/
theorem filter_length_mono_of_imp {α : Type} (f g : α → Bool) (l : List α)
    (h : ∀ a, f a = true → g a = true) :
    (l.filter f).length ≤ (l.filter g).length := by
  induction l with
  | nil => simp
  | cons a t ih =>
    by_cases hf : f a = true
    · rw [List.filter_cons_of_pos hf, List.filter_cons_of_pos (h a hf)]
      simpa using ih
    · rw [List.filter_cons_of_neg (by simpa using hf)]
      by_cases hg : g a = true
      · rw [List.filter_cons_of_pos hg]
        exact le_trans ih (by simp)
      · rw [List.filter_cons_of_neg (by simpa using hg)]
        exact ih

/-- C6: raising the RSI ceiling while keeping every other dimension fixed
relaxes the entry filter of line 113: every candidate selected under the
tighter ceiling is still selected under the higher one, so the selected
subset size never decreases. -/
theorem rsi_ceiling_monotone (pool : List Candidate) (p : Params) (r2 : ℚ)
    (h : p.rsi_max ≤ r2) :
    (∀ c ∈ pool.filter (entryFilter p),
        c ∈ pool.filter (entryFilter { p with rsi_max := r2 })) ∧
    (pool.filter (entryFilter p)).length ≤
      (pool.filter (entryFilter { p with rsi_max := r2 })).length := by
  have himp : ∀ c, entryFilter p c = true → entryFilter { p with rsi_max := r2 } c = true := by
    intro c hc
    simp only [entryFilter, Bool.and_eq_true, decide_eq_true_eq] at hc ⊢
    exact ⟨hc.1, le_trans hc.2 h⟩
  constructor
  · intro c hc
    rw [List.mem_filter] at hc ⊢
    exact ⟨hc.1, himp c hc.2⟩
  · exact filter_length_mono_of_imp _ _ pool himp

/-- Witness for C6: one candidate with RSI 35 is rejected at ceiling 30 and
selected at ceiling 40; the theorem applies with `30 ≤ 40`. -/
theorem rsi_ceiling_monotone_witness :
    (∀ c ∈ ([⟨0, 10, 20, 35, []⟩] : List Candidate).filter (entryFilter ⟨15, 30, 10, -1/10, 70⟩),
        c ∈ ([⟨0, 10, 20, 35, []⟩] : List Candidate).filter
          (entryFilter { (⟨15, 30, 10, -1/10, 70⟩ : Params) with rsi_max := 40 })) ∧
    (([⟨0, 10, 20, 35, []⟩] : List Candidate).filter
        (entryFilter ⟨15, 30, 10, -1/10, 70⟩)).length ≤
      (([⟨0, 10, 20, 35, []⟩] : List Candidate).filter
        (entryFilter { (⟨15, 30, 10, -1/10, 70⟩ : Params) with rsi_max := 40 })).length :=
  rsi_ceiling_monotone [⟨0, 10, 20, 35, []⟩] ⟨15, 30, 10, -1/10, 70⟩ 40 (by norm_num)

/-- The insertion `insertByWinRate` only repositions the inserted element. -/
theorem insertByWinRate_perm (x : ComboResult) (l : List ComboResult) :
    (insertByWinRate x l).Perm (x :: l) := by
  induction l with
  | nil => simp [insertByWinRate]
  | cons y ys ih =>
    simp only [insertByWinRate]
    split
    · exact ((ih.cons y).trans (List.Perm.swap x y ys))
    · exact List.Perm.refl _

/-- The sort `sortAscWinRate` permutes its input. -/
theorem sortAscWinRate_perm (l : List ComboResult) :
    (sortAscWinRate l).Perm l := by
  induction l with
  | nil => exact List.Perm.refl _
  | cons x xs ih =>
    exact (insertByWinRate_perm x (sortAscWinRate xs)).trans (ih.cons x)

/-- The insertion `insertByWinRate` preserves ascending order by win rate. -/
theorem insertByWinRate_pairwise (x : ComboResult) (l : List ComboResult)
    (h : List.Pairwise (fun a b => a.winRate ≤ b.winRate) l) :
    List.Pairwise (fun a b => a.winRate ≤ b.winRate) (insertByWinRate x l) := by
  induction l with
  | nil => simp [insertByWinRate]
  | cons y ys ih =>
    rw [List.pairwise_cons] at h
    simp only [insertByWinRate]
    split
    · rename_i hlt
      rw [List.pairwise_cons]
      refine ⟨fun a ha => ?_, ih h.2⟩
      have ha2 := (insertByWinRate_perm x ys).mem_iff.mp ha
      rcases List.mem_cons.mp ha2 with ha2 | ha2
      · rw [ha2]; exact le_of_lt hlt
      · exact h.1 a ha2
    · rename_i hnlt
      push_neg at hnlt
      rw [List.pairwise_cons]
      refine ⟨fun a ha => ?_, List.pairwise_cons.mpr h⟩
      rcases List.mem_cons.mp ha with ha | ha
      · rw [ha]; exact hnlt
      · exact le_trans hnlt (h.1 a ha)

/-- The sort `sortAscWinRate` sorts ascending by win rate. -/
theorem sortAscWinRate_pairwise (l : List ComboResult) :
    List.Pairwise (fun a b => a.winRate ≤ b.winRate) (sortAscWinRate l) := by
  induction l with
  | nil => simp [sortAscWinRate]
  | cons x xs ih => exact insertByWinRate_pairwise x (sortAscWinRate xs) ih

/-- C5 amended: the ranking of lines 163-166 orders the emitted rows by win
rate alone, descending, and returns the first 100; the output is a
permutation-of-input prefix, and any earlier row's win rate is at least any
later row's.  No second sort key exists: rows with equal win rate keep their (reversed) iteration
order, which is not a function of sample count or mean return. -/
theorem ranked_by_win_rate_only (l : List ComboResult) :
    (sortResults l).Perm l ∧
    List.Pairwise (fun a b => b.winRate ≤ a.winRate) (rankedResults l) ∧
    rankedResults l = (sortResults l).take 100 := by
  refine ⟨(List.reverse_perm _).trans (sortAscWinRate_perm l), ?_, rfl⟩
  have h1 : List.Pairwise (fun a b => b.winRate ≤ a.winRate) (sortResults l) := by
    rw [sortResults, List.pairwise_reverse]
    exact sortAscWinRate_pairwise l
  exact h1.sublist (List.take_sublist 100 _)

/-- C5 counterexample: two result rows with equal win rate but different
sample counts and mean returns come out in one order from one input order
and in the opposite order from the other, so the relative order of
equal-win-rate rows is a function of grid iteration position — not of sample
count or mean return (the source sorts by `'胜率'` alone, line 163). -/
theorem equal_win_rate_order_not_by_count_or_mean :
    rankedResults
        [⟨⟨15, 40, 10, -1/10, 70⟩, 600, 1/2, 1/100⟩,
         ⟨⟨15, 40, 10, -1/10, 70⟩, 700, 1/2, 1/50⟩] =
      [⟨⟨15, 40, 10, -1/10, 70⟩, 700, 1/2, 1/50⟩,
       ⟨⟨15, 40, 10, -1/10, 70⟩, 600, 1/2, 1/100⟩] ∧
    rankedResults
        [⟨⟨15, 40, 10, -1/10, 70⟩, 700, 1/2, 1/50⟩,
         ⟨⟨15, 40, 10, -1/10, 70⟩, 600, 1/2, 1/100⟩] =
      [⟨⟨15, 40, 10, -1/10, 70⟩, 600, 1/2, 1/100⟩,
       ⟨⟨15, 40, 10, -1/10, 70⟩, 700, 1/2, 1/50⟩] ∧
    (600 : Nat) < 700 ∧ (1/100 : ℚ) < 1/50 := by
  refine ⟨?_, ?_, by norm_num, by norm_num⟩ <;>
    norm_num [rankedResults, sortResults, sortAscWinRate, insertByWinRate]

/-- C9: an instrument whose series is too short (< 65 bars) or lacks any of
the required columns makes `calculate_all_indicators` return `None`
(lines 29, 60); the scan loop skips it (`continue`, line 73), so it
contributes exactly zero candidates and the pool over the remaining
instruments is unchanged — no error escapes (the model is a total
function). -/
theorem failed_instrument_isolated (pre post : List RawDF) (df : RawDF)
    (h : df.nrows < 65 ∨ df.close? = none ∨ df.high? = none ∨ df.low? = none) :
    pool (pre ++ df :: post) = pool (pre ++ post) := by
  have hnone : calculate_all_indicators df = none := by
    unfold calculate_all_indicators
    by_cases h65 : df.nrows < 65
    · simp [h65]
    · simp only [h65, if_false]
      rcases hc : df.close? with _ | c <;> rcases hh : df.high? with _ | hi <;>
        rcases hl : df.low? with _ | lo <;>
        first
          | rfl
          | (exfalso; rcases h with h | h | h | h <;> simp_all)
  simp [pool, List.flatMap_append, hnone]

/-- Witness for C9: a file with no rows and no columns between two empty
file lists contributes nothing. -/
theorem failed_instrument_isolated_witness :
    pool ([] ++ (⟨0, none, none, none⟩ : RawDF) :: []) = pool ([] ++ []) :=
  failed_instrument_isolated [] [] ⟨0, none, none, none⟩ (Or.inl (by norm_num))

/-- A `NaN`-semantics comparison can only be true on a defined value. -/
theorem optGtC_isSome {o : Option ℚ} {t : ℚ} (h : optGtC o t = true) :
    o.isSome := by
  cases o with
  | none => exact absurd h (by simp [optGtC])
  | some v => rfl

/-- A `NaN`-semantics comparison can only be true on two defined values. -/
theorem optGtOpt_isSome {a b : Option ℚ} (h : optGtOpt a b = true) :
    a.isSome ∧ b.isSome := by
  cases a <;> cases b <;> simp [optGtOpt] at h ⊢

/-- C8: every candidate the pool builder creates sits at an index where all
indicators consulted by the admission mask are defined (a `NaN` would make
the mask false, line 77), has at least 36 bars after it (line 81), and
carries a forward window of exactly 35 days — the maximum hold horizon of
the grid (`max_hold` ≤ 35, with 35 attained), so no pool is ragged. -/
theorem candidate_pool_invariants (ind : Indicators) (c : Candidate)
    (hc : c ∈ buildSignals ind) :
    (ind.potential.getD c.idx none).isSome ∧
    (ind.k.getD c.idx none).isSome ∧
    (ind.d.getD c.idx none).isSome ∧
    c.idx + 36 < ind.close.length ∧
    c.window.length = 35 ∧
    (∀ h ∈ max_hold_grid, h ≤ 35) ∧ 35 ∈ max_hold_grid := by
  obtain ⟨i, hi, hif⟩ := List.mem_filterMap.mp hc
  split at hif
  · rename_i hcond
    cases hif
    rw [Bool.and_eq_true] at hcond
    obtain ⟨hmask, hlen⟩ := hcond
    unfold coarseMask at hmask
    rw [Bool.and_eq_true, Bool.and_eq_true] at hmask
    obtain ⟨⟨hpot, _⟩, hkd⟩ := hmask
    exact ⟨optGtC_isSome hpot, (optGtOpt_isSome hkd).1, (optGtOpt_isSome hkd).2,
      of_decide_eq_true hlen, by simp, by decide, by decide⟩
  · exact Option.noConfusion hif

/-- A minimal instrument for the C8 witness: 37 bars, indicators defined at
index 0 only, where the admission mask holds. -/
def sampleInd : Indicators :=
  { close := 1 :: List.replicate 36 1, low := 1 :: List.replicate 36 1,
    rsi6 := 30 :: List.replicate 36 30,
    potential := some 20 :: List.replicate 36 none,
    k := some 2 :: List.replicate 36 none,
    d := some 1 :: List.replicate 36 none,
    macd_h := 1 :: List.replicate 36 1 }

/-- The candidate built from `sampleInd` at index 0. -/
def sampleCand : Candidate :=
  ⟨0, 1, 20, 30, (List.range 35).map fun j => mkDay sampleInd (0 + 1 + j)⟩

/-- Witness for C8 at the one admitted index of `sampleInd`. -/
theorem candidate_pool_invariants_witness :
    (sampleInd.potential.getD sampleCand.idx none).isSome ∧
    (sampleInd.k.getD sampleCand.idx none).isSome ∧
    (sampleInd.d.getD sampleCand.idx none).isSome ∧
    sampleCand.idx + 36 < sampleInd.close.length ∧
    sampleCand.window.length = 35 ∧
    (∀ h ∈ max_hold_grid, h ≤ 35) ∧ 35 ∈ max_hold_grid := by
  apply candidate_pool_invariants sampleInd sampleCand
  apply List.mem_filterMap.mpr
  refine ⟨0, by simp [sampleInd], ?_⟩
  norm_num [sampleInd, sampleCand, coarseMask, optGtC, optGtOpt, List.getD]

/-- Every grid point's entry thresholds satisfy `min_pot ≥ 15` and
`rsi_max ≤ 40` (`PARAM_GRID`, lines 13-14). -/
theorem paramGrid_entry_bounds (p : Params) (hp : p ∈ paramGrid) :
    15 ≤ p.min_pot ∧ p.rsi_max ≤ 40 := by
  simp only [paramGrid, List.mem_flatMap, List.mem_map] at hp
  obtain ⟨mp, hmp, rm, hrm, mh, hmh, sl, hsl, ks, hks, rfl⟩ := hp
  constructor
  · fin_cases hmp <;> norm_num
  · fin_cases hrm <;> norm_num

/-- The grid point `(15, 40, 10, -0.07, 70)` used by the refinement
counterexample is a genuine element of the Cartesian product. -/
theorem corner_mem_paramGrid : (⟨15, 40, 10, -7/100, 70⟩ : Params) ∈ paramGrid := by
  simp only [paramGrid, List.mem_flatMap, List.mem_map]
  exact ⟨15, by norm_num [min_pot_grid], 40, by norm_num [rsi_max_grid],
    10, by norm_num [max_hold_grid], -7/100, by norm_num [stop_loss_grid],
    70, by norm_num [k_sell_grid], rfl⟩

/-- C10 counterexample: the coarse admission mask of line 77 also demands
the KDJ golden cross `k > d`, which no grid dimension checks; the index
with `pot = 20, rsi = 30, k = 1, d = 2` passes the entry filter of the grid
point `(min_pot 15, rsi_max 40)` but is excluded from the pre-built pool,
so filtering the pool does lose a trade relative to filtering without the
coarse pre-filter. -/
theorem coarse_prefilter_loses_trades :
    coarsePred ⟨20, 30, 1, 2⟩ = false ∧
    gridEntryPred ⟨15, 40, 10, -7/100, 70⟩ ⟨20, 30, 1, 2⟩ = true ∧
    (⟨15, 40, 10, -7/100, 70⟩ : Params) ∈ paramGrid ∧
    (([⟨20, 30, 1, 2⟩] : List Point).filter coarsePred).filter
        (gridEntryPred ⟨15, 40, 10, -7/100, 70⟩) = [] ∧
    ([⟨20, 30, 1, 2⟩] : List Point).filter
        (gridEntryPred ⟨15, 40, 10, -7/100, 70⟩) = [⟨20, 30, 1, 2⟩] := by
  refine ⟨by norm_num [coarsePred], by norm_num [gridEntryPred],
    corner_mem_paramGrid, ?_, ?_⟩ <;>
    norm_num [coarsePred, gridEntryPred, List.filter]

/-- C10 amended: the numeric clauses of the coarse mask (`pot > 10`,
`rsi < 45`) are strictly looser than every grid point's entry thresholds
(`min_pot ≥ 15`, `rsi_max ≤ 40`), so for every grid point, filtering the
coarse pre-filtered pool selects exactly the trades that pass the grid
thresholds together with the fixed KDJ golden-cross condition `k > d`; the
pre-filter loses no trade satisfying `k > d`, but trades with `k ≤ d` are
lost for every grid point. -/
theorem coarse_prefilter_exact_modulo_golden_cross (p : Params) (pts : List Point)
    (h15 : 15 ≤ p.min_pot) (h40 : p.rsi_max ≤ 40) :
    (pts.filter coarsePred).filter (gridEntryPred p) =
      (pts.filter fun x => decide (x.d < x.k)).filter (gridEntryPred p) := by
  rw [List.filter_filter, List.filter_filter]
  apply List.filter_congr
  intro x _
  by_cases hg : gridEntryPred p x = true
  · have hg2 := hg
    simp only [gridEntryPred, Bool.and_eq_true, decide_eq_true_eq] at hg2
    have h1 : (10 : ℚ) < x.pot := by linarith [hg2.1]
    have h3 : x.rsi < 45 := by linarith [hg2.2]
    simp [coarsePred, hg, h1, h3]
  · rw [Bool.not_eq_true] at hg
    rw [hg]
    simp

/-- Witness for C10 amended: at the grid corner `(15, 40)`, filtering the
coarse-masked points equals filtering the golden-cross points; the point
with `k ≤ d` is dropped on both sides. -/
theorem coarse_prefilter_exact_modulo_golden_cross_witness :
    (([⟨20, 30, 3, 2⟩, ⟨20, 30, 1, 2⟩] : List Point).filter coarsePred).filter
        (gridEntryPred ⟨15, 40, 10, -7/100, 70⟩) =
      (([⟨20, 30, 3, 2⟩, ⟨20, 30, 1, 2⟩] : List Point).filter fun x =>
          decide (x.d < x.k)).filter (gridEntryPred ⟨15, 40, 10, -7/100, 70⟩) :=
  coarse_prefilter_exact_modulo_golden_cross ⟨15, 40, 10, -7/100, 70⟩
    [⟨20, 30, 3, 2⟩, ⟨20, 30, 1, 2⟩] (by norm_num) (by norm_num)

/-! ## Facts about the exponential smoothing recursion, for the RSI claim -/

/-- Every output of `ewmFrom` over inputs bounded below by `m ≥ 0`, from a
nonnegative running value, is at least `a * m`. -/
theorem ewmFrom_mem_lb (a m : ℚ) (ha0 : 0 ≤ a) (ha1 : a ≤ 1) (hm : 0 ≤ m) :
    ∀ (xs : List ℚ) (acc : ℚ), 0 ≤ acc → (∀ x ∈ xs, m ≤ x) →
      ∀ y ∈ ewmFrom a acc xs, a * m ≤ y := by
  intro xs
  induction xs with
  | nil =>
    intro acc _ _ y hy
    simp [ewmFrom] at hy
  | cons x t ih =>
    intro acc hacc hxs y hy
    have hx : m ≤ x := hxs x (List.mem_cons_self x t)
    have hv0 : 0 ≤ (1 - a) * acc + a * x := by nlinarith
    rcases List.mem_cons.mp (by simpa [ewmFrom] using hy) with h | h
    · rw [h]; nlinarith
    · exact ih ((1 - a) * acc + a * x) hv0
        (fun z hz => hxs z (List.mem_cons_of_mem x hz)) y h

/-- The recursion `ewmFrom` over an all-zero input from a zero running value stays zero. -/
theorem ewmFrom_zero (a : ℚ) :
    ∀ (xs : List ℚ) (acc : ℚ), acc = 0 → (∀ x ∈ xs, x = 0) →
      ∀ y ∈ ewmFrom a acc xs, y = 0 := by
  intro xs
  induction xs with
  | nil =>
    intro acc _ _ y hy
    simp [ewmFrom] at hy
  | cons x t ih =>
    intro acc hacc hxs y hy
    have hx : x = 0 := hxs x (List.mem_cons_self x t)
    have hv : (1 - a) * acc + a * x = 0 := by rw [hacc, hx]; ring
    rcases List.mem_cons.mp (by simpa [ewmFrom] using hy) with h | h
    · rw [h, hv]
    · exact ih ((1 - a) * acc + a * x) hv
        (fun z hz => hxs z (List.mem_cons_of_mem x hz)) y h

/-- An element of a `zipWith` comes from elements of the two lists. -/
theorem exists_of_mem_zipWith {α β γ : Type} {f : α → β → γ} :
    ∀ {as : List α} {bs : List β} {c : γ}, c ∈ List.zipWith f as bs →
      ∃ a ∈ as, ∃ b ∈ bs, c = f a b := by
  intro as
  induction as with
  | nil =>
    intro bs c h
    simp at h
  | cons a t ih =>
    intro bs c h
    cases bs with
    | nil => simp at h
    | cons b bt =>
      rcases List.mem_cons.mp h with h | h
      · exact ⟨a, List.mem_cons_self a t, b, List.mem_cons_self b bt, h⟩
      · obtain ⟨a2, ha2, b2, hb2, rfl⟩ := ih h
        exact ⟨a2, List.mem_cons_of_mem a ha2, b2, List.mem_cons_of_mem b hb2, rfl⟩

/-- In a series whose adjacent bars grow by at least `g`, every adjacent
difference (second list shifted by one) is at least `g`. -/
theorem chain_gains (g : ℚ) :
    ∀ (cs : List ℚ) (c : ℚ), List.Chain' (fun a b => a + g ≤ b) (c :: cs) →
      ∀ x ∈ List.zipWith (fun a b => a - b) cs (c :: cs), g ≤ x := by
  intro cs
  induction cs with
  | nil =>
    intro c _ x hx
    simp at hx
  | cons c2 t ih =>
    intro c hch x hx
    rw [List.chain'_cons] at hch
    rcases List.mem_cons.mp (by simpa using hx) with h | h
    · rw [h]; linarith [hch.1]
    · exact ih c2 hch.2 x h

/-- C7 counterexample: for the strictly increasing series `[1, 2]` the
epsilon-guarded RSI at the first position past warm-up is
`100 - 100 / (1 + (1/6) * 10^9)` — strictly less than, not exactly, `100`. -/
theorem rsi6_not_exactly_100 :
    (1 : ℚ) < 2 ∧ (rsi6 [1, 2]).getD 1 0 ≠ 100 := by
  constructor
  · norm_num
  · norm_num [rsi6, deltas, ewm, ewmFrom, EPS, List.getD]

/-- C7 amended: on a series whose bars each grow by at least `g > 0` (so
losses are always zero), the epsilon guard `1e-9` keeps every RSI value past
warm-up well defined and within `600 / (10^9 * g)` of `100`, but strictly
below `100` — never exactly `100`. -/
theorem rsi6_of_strictly_increasing (close : List ℚ) (g : ℚ) (hg : 0 < g)
    (hchain : List.Chain' (fun a b => a + g ≤ b) close) :
    ∀ r ∈ (rsi6 close).tail, r < 100 ∧ 100 - 600 / (10^9 * g) ≤ r := by
  intro r hr
  cases close with
  | nil => simp [rsi6, deltas, ewm] at hr
  | cons c cs =>
    have hd : deltas (c :: cs) =
        0 :: List.zipWith (fun a b => a - b) cs (c :: cs) := by
      simp [deltas]
    have htail : (rsi6 (c :: cs)).tail =
        List.zipWith (fun u n => 100 - 100 / (1 + u / (if n = 0 then EPS else n)))
          (ewmFrom (1/6) 0
            ((List.zipWith (fun a b => a - b) cs (c :: cs)).map fun x =>
              if 0 < x then x else 0))
          (ewmFrom (1/6) 0
            ((List.zipWith (fun a b => a - b) cs (c :: cs)).map fun x =>
              if x < 0 then -x else 0)) := by
      simp [rsi6, hd, ewm]
    rw [htail] at hr
    obtain ⟨u, hu, n, hn, rfl⟩ := exists_of_mem_zipWith hr
    have hgains := chain_gains g cs c hchain
    have hn0 : n = 0 := by
      refine ewmFrom_zero (1/6) _ 0 rfl ?_ n hn
      intro z hz
      obtain ⟨x, hx, rfl⟩ := List.mem_map.mp hz
      have hxg := hgains x hx
      rw [if_neg (by linarith)]
    have hu1 : (1/6 : ℚ) * g ≤ u := by
      refine ewmFrom_mem_lb (1/6) g (by norm_num) (by norm_num) (le_of_lt hg) _ 0
        le_rfl ?_ u hu
      intro z hz
      obtain ⟨x, hx, rfl⟩ := List.mem_map.mp hz
      have hxg := hgains x hx
      rw [if_pos (by linarith)]
      exact hxg
    have hupos : 0 < u := by nlinarith
    rw [hn0, if_pos rfl]
    have hue : u / EPS = u * 10^9 := by
      rw [EPS, one_div, div_inv_eq_mul]
      norm_num
    rw [hue]
    have hden : (0 : ℚ) < 1 + u * 10^9 := by nlinarith
    constructor
    · have hfrac : 0 < 100 / (1 + u * 10^9) := by positivity
      linarith
    · have hkey : (100 : ℚ) / (1 + u * 10^9) ≤ 600 / (10^9 * g) := by
        rw [div_le_div_iff₀ hden (by positivity)]
        nlinarith
      linarith

/-- Witness for C7 amended at the strictly increasing series `[1, 2]` with
uniform gain `1`, read off at the single position past warm-up. -/
theorem rsi6_of_strictly_increasing_witness :
    (rsi6 [1, 2]).getD 1 0 < 100 ∧
    100 - 600 / (10^9 * 1) ≤ (rsi6 [1, 2]).getD 1 0 := by
  have h := rsi6_of_strictly_increasing [1, 2] 1 (by norm_num)
    (by norm_num [List.chain'_cons, List.chain'_singleton])
  have hm : (rsi6 [1, 2]).getD 1 0 ∈ (rsi6 [1, 2]).tail := by
    norm_num [rsi6, deltas, ewm, ewmFrom, List.getD]
  exact h _ hm
